import Mathlib

/-!
Verification development for the FNOL claims-processing pipeline in
`src/main.py`.  The Python module is embedded shallowly:

* Python strings are `String` / `List Char`; `str | None` values are
  `Option String`.
* The `re` patterns used by `extract_fields` are embedded as data of a
  small regex AST (`Re`), and `re.search` as a backtracking matcher
  (`mrun` / `searchFrom`) that enumerates alternatives in Python's
  priority order (leftmost match; greedy prefers longer, lazy prefers
  shorter; alternation prefers the left branch).  All patterns run under
  `re.I | re.S` (the default flags of `first_group`), so literal letters
  and character classes are case-insensitive and `.` matches `'\n'`.
  `\s` and `str.lower`/`str.strip` are modelled on their ASCII behaviour.
* Python floats are modelled as exact rationals (`Rat`); the amounts the
  program parses are short decimal literals, where the two agree on the
  comparisons the router performs.
* `pdf_to_text` is document I/O and is out of scope; the pipeline is
  modelled from the extracted text onward (`process_fnol_text`).
-/

set_option maxHeartbeats 1600000

namespace FNOL

/-- Python whitespace test used by `str.strip` and the regex class `\s`
(ASCII part). -/
def pySpaceChar (c : Char) : Bool :=
  c == ' ' || c == '\t' || c == '\n' || c == '\r' || c == '\x0b' || c == '\x0c'

/-- Python `str.strip()` on a character list. -/
def pyStripL (l : List Char) : List Char :=
  ((l.dropWhile pySpaceChar).reverse.dropWhile pySpaceChar).reverse

/-- Python `str.strip()`. -/
def pyStrip (s : String) : String := String.mk (pyStripL s.data)

/-- Python `str.lower()` (ASCII letters). -/
def pyLower (s : String) : String := String.mk (s.data.map Char.toLower)

/-- Exact prefix test on character lists. -/
def listPrefixOf : List Char → List Char → Bool
  | [], _ => true
  | _ :: _, [] => false
  | p :: ps, c :: cs => p == c && listPrefixOf ps cs

/-- Python substring test `p in s` on character lists. -/
def substrIn (p : List Char) : List Char → Bool
  | [] => listPrefixOf p []
  | c :: rest => listPrefixOf p (c :: rest) || substrIn p rest

/-- Case-insensitive prefix test (how a literal matches under `re.I`). -/
def ciPrefixOf : List Char → List Char → Bool
  | [], _ => true
  | _ :: _, [] => false
  | p :: ps, c :: cs => p.toLower == c.toLower && ciPrefixOf ps cs

/-- Index of the first case-insensitive occurrence of `p` in `s`. -/
def firstOcc (p : List Char) : List Char → Option Nat
  | [] => if listPrefixOf p [] then some 0 else none
  | c :: rest =>
      if ciPrefixOf p (c :: rest) then some 0
      else (firstOcc p rest).map (· + 1)

/-- Case-insensitive single-character matcher (a literal under `re.I`). -/
def ciCh (c : Char) : Char → Bool := fun d => c.toLower == d.toLower

/-- Regex AST covering the constructs `main.py`'s patterns use.
Repetition operators only ever apply to single-character classes in
those patterns, so the AST bakes that in (`starG`, `starL`, `repC`). -/
inductive Re where
  | eps : Re
  | cls : (Char → Bool) → Re
  | cat : Re → Re → Re
  | alt : Re → Re → Re
  | starG : (Char → Bool) → Re
  | starL : (Char → Bool) → Re
  | repC : (Char → Bool) → Nat → Option Nat → Re
  | grp : Re → Re
  | zEnd : Re

/-- Merge of capture-group results along a concatenation (the single
group of each pattern is reported by whichever side captured it). -/
def mcap : Option (List Char) → Option (List Char) → Option (List Char)
  | some g, _ => some g
  | none, g => g

/-- Backtracking matcher: all `(remaining input, group-1 capture)`
results of matching `r` at the start of `s`, in Python's backtracking
priority order (the head is the result `re.search` commits to once the
start position is fixed). -/
def mrun : Re → List Char → List (List Char × Option (List Char))
  | .eps, s => [(s, none)]
  | .cls p, s =>
      match s with
      | [] => []
      | c :: rest => if p c then [(rest, none)] else []
  | .cat a b, s =>
      (mrun a s).flatMap (fun rg => (mrun b rg.1).map (fun rg2 => (rg2.1, mcap rg.2 rg2.2)))
  | .alt a b, s => mrun a s ++ mrun b s
  | .starG p, s =>
      ((List.range ((s.takeWhile p).length + 1)).reverse).map (fun k => (s.drop k, none))
  | .starL p, s =>
      (List.range ((s.takeWhile p).length + 1)).map (fun k => (s.drop k, none))
  | .repC p lo hi, s =>
      let m := (s.takeWhile p).length
      let top := match hi with | some h => min h m | none => m
      if lo ≤ top then
        ((List.range' lo (top + 1 - lo)).reverse).map (fun k => (s.drop k, none))
      else []
  | .grp a, s =>
      (mrun a s).map (fun rg => (rg.1, some (s.take (s.length - rg.1.length))))
  | .zEnd, s => match s with | [] => [([], none)] | _ :: _ => []

/-- `re.search`: try each start position left to right and commit to the
first successful one; the result is that match's group-1 value. -/
def searchFrom (r : Re) : List Char → Option (Option (List Char))
  | [] => ((mrun r []).head?).map (fun rg => rg.2)
  | c :: rest =>
      match (mrun r (c :: rest)).head? with
      | some rg => some rg.2
      | none => searchFrom r rest

/-- Embeds `first_group` of `main.py`: `m.group(1).strip() if m else None`.
Every pattern passed to it has its capturing group in a mandatory
position, so a successful match always carries a group-1 capture; a
groupless success is mapped to `none` like a failed search. -/
def first_group (r : Re) (text : String) : Option String :=
  match searchFrom r text.data with
  | some (some g) => some (pyStrip (String.mk g))
  | some none => none
  | none => none

/-! Character classes appearing in the patterns (all under `re.I`). -/

/-- Class `\s`. -/
def wsCh (c : Char) : Bool := pySpaceChar c

/-- Class `[:\s]`. -/
def colonWsCh (c : Char) : Bool := c == ':' || pySpaceChar c

/-- Class `[^\n]`. -/
def notNLCh (c : Char) : Bool := !(c == '\n')

/-- Class `.` under `re.S` (DOTALL). -/
def anyCh (_ : Char) : Bool := true

/-- Class `[A-Z0-9\-]` under `re.I`. -/
def alnumDashCh (c : Char) : Bool := c.isAlpha || c.isDigit || c == '-'

/-- Class `[0-9]`. -/
def digitCh (c : Char) : Bool := c.isDigit

/-- Class `[0-9/.\-\s]`. -/
def dateCh (c : Char) : Bool :=
  c.isDigit || c == '/' || c == '.' || c == '-' || pySpaceChar c

/-- Class `[A-HJ-NPR-Z0-9]` under `re.I` (VIN letters, no I/O/Q). -/
def vinCh (c : Char) : Bool :=
  (c.isAlpha && !(c.toLower == 'i') && !(c.toLower == 'o') && !(c.toLower == 'q'))
    || c.isDigit

/-- Class `[$]`. -/
def dollarCh (c : Char) : Bool := c == '$'

/-- Class `[0-9,\.]`. -/
def amtCh (c : Char) : Bool := c.isDigit || c == ',' || c == '.'

/-- Class `[A-Z ]` under `re.I`: letters of either case, or a space. -/
def letterSpaceCh (c : Char) : Bool := c.isAlpha || c == ' '

/-- Literal `:`. -/
def colonCh (c : Char) : Bool := c == ':'

/-- Literal `\n`. -/
def nlCh (c : Char) : Bool := c == '\n'

/-- Literal `/`. -/
def slashCh (c : Char) : Bool := c == '/'

/-- Literal `.`. -/
def dotCh (c : Char) : Bool := c == '.'

/-- Literal `#`. -/
def hashCh (c : Char) : Bool := c == '#'

/-- Literal word under `re.I`, as a chain of case-insensitive chars. -/
def litsL : List Char → Re
  | [] => .eps
  | c :: cs => .cat (.cls (ciCh c)) (litsL cs)

/-- Literal word under `re.I`. -/
def lits (w : String) : Re := litsL w.data

/-- Greedy `r?`. -/
def optG (r : Re) : Re := .alt r .eps

/-! The twelve patterns of `extract_fields`, one per field. -/

/-- Pattern `POLICY\s*NUMBER[:\s]*([A-Z0-9\-]+)`. -/
def rePolicyNumber : Re :=
  .cat (lits "POLICY") (.cat (.starG wsCh)
    (.cat (lits "NUMBER") (.cat (.starG colonWsCh)
      (.grp (.repC alnumDashCh 1 none)))))

/-- Pattern `NAME OF INSURED[^\n]*\n(.*)`. -/
def reName : Re :=
  .cat (lits "NAME OF INSURED") (.cat (.starG notNLCh)
    (.cat (.cls nlCh) (.grp (.starG anyCh))))

/-- Pattern `Effective\s*Dates?[:\s]*([0-9/.\-\s]+to[0-9/.\-\s]+)`. -/
def reEffective : Re :=
  .cat (lits "Effective") (.cat (.starG wsCh)
    (.cat (lits "Date") (.cat (optG (.cls (ciCh 's')))
      (.cat (.starG colonWsCh)
        (.grp (.cat (.repC dateCh 1 none)
          (.cat (lits "to") (.repC dateCh 1 none))))))))

/-- Pattern `DATE OF LOSS[:\s]*([0-9]{2}/[0-9]{2}/[0-9]{4})`. -/
def reDate : Re :=
  .cat (lits "DATE OF LOSS") (.cat (.starG colonWsCh)
    (.grp (.cat (.repC digitCh 2 (some 2)) (.cat (.cls slashCh)
      (.cat (.repC digitCh 2 (some 2)) (.cat (.cls slashCh)
        (.repC digitCh 4 (some 4))))))))

/-- Pattern `TIME[:\s]*([0-9]{1,2}:[0-9]{2}\s*(?:AM|PM)?)`. -/
def reTime : Re :=
  .cat (lits "TIME") (.cat (.starG colonWsCh)
    (.grp (.cat (.repC digitCh 1 (some 2)) (.cat (.cls colonCh)
      (.cat (.repC digitCh 2 (some 2)) (.cat (.starG wsCh)
        (optG (.alt (lits "AM") (lits "PM")))))))))

/-- Pattern `LOCATION OF LOSS[^\n]*\n(.*)`. -/
def reLocation : Re :=
  .cat (lits "LOCATION OF LOSS") (.cat (.starG notNLCh)
    (.cat (.cls nlCh) (.grp (.starG anyCh))))

/-- Pattern `DESCRIPTION OF ACCIDENT[^\n]*\n(.+?)(?:\n[A-Z ]{5,}:|\Z)`. -/
def reDescription : Re :=
  .cat (lits "DESCRIPTION OF ACCIDENT") (.cat (.starG notNLCh)
    (.cat (.cls nlCh)
      (.cat (.grp (.cat (.cls anyCh) (.starL anyCh)))
        (.alt (.cat (.cls nlCh) (.cat (.repC letterSpaceCh 5 none) (.cls colonCh)))
          .zEnd))))

/-- Pattern `CLAIMANT[:\s]*([^\n]+)`. -/
def reClaimant : Re :=
  .cat (lits "CLAIMANT") (.cat (.starG colonWsCh) (.grp (.repC notNLCh 1 none)))

/-- Pattern `THIRD PART(?:Y|IES)[:\s]*([^\n]+)`. -/
def reThird : Re :=
  .cat (lits "THIRD PART") (.cat (.alt (lits "Y") (lits "IES"))
    (.cat (.starG colonWsCh) (.grp (.repC notNLCh 1 none))))

/-- Pattern `PHONE\s*#.*?\n(.+?)(?:\n\n|\Z)`. -/
def reContact : Re :=
  .cat (lits "PHONE") (.cat (.starG wsCh)
    (.cat (.cls hashCh) (.cat (.starL anyCh)
      (.cat (.cls nlCh)
        (.cat (.grp (.cat (.cls anyCh) (.starL anyCh)))
          (.alt (.cat (.cls nlCh) (.cls nlCh)) .zEnd))))))

/-- Pattern `V\.?I\.?N\.?[:\s]*([A-HJ-NPR-Z0-9]{11,17})`. -/
def reVin : Re :=
  .cat (.cls (ciCh 'V')) (.cat (optG (.cls dotCh))
    (.cat (.cls (ciCh 'I')) (.cat (optG (.cls dotCh))
      (.cat (.cls (ciCh 'N')) (.cat (optG (.cls dotCh))
        (.cat (.starG colonWsCh) (.grp (.repC vinCh 11 (some 17)))))))))

/-- Pattern `ESTIMATE AMOUNT[:\s]*([$]?\s*[0-9,\.]+)`. -/
def reEstimate : Re :=
  .cat (lits "ESTIMATE AMOUNT") (.cat (.starG colonWsCh)
    (.grp (.cat (optG (.cls dollarCh)) (.cat (.starG wsCh) (.repC amtCh 1 none)))))

/-- Pattern `CLAIM TYPE[:\s]*([^\n]+)`. -/
def reClaimType : Re :=
  .cat (lits "CLAIM TYPE") (.cat (.starG colonWsCh) (.grp (.repC notNLCh 1 none)))

/-- Pattern `ATTACHMENT` (presence check only, no group). -/
def reAttachment : Re := lits "ATTACHMENT"

/-- Pattern `INITIAL ESTIMATE[:\s]*([$]?\s*[0-9,\.]+)`. -/
def reInitial : Re :=
  .cat (lits "INITIAL ESTIMATE") (.cat (.starG colonWsCh)
    (.grp (.cat (optG (.cls dollarCh)) (.cat (.starG wsCh) (.repC amtCh 1 none)))))

/-- The mandatory field catalog `MANDATORY_FIELDS` of `main.py`. -/
def MANDATORY_FIELDS : List String :=
  ["policy_number", "policyholder_name", "effective_dates",
   "incident_date", "incident_time", "incident_location",
   "incident_description", "claimant", "third_parties",
   "contact_details", "asset_type", "asset_id",
   "estimated_damage", "claim_type", "attachments",
   "initial_estimate"]

/-- Embeds `extract_fields`: the Python dict (insertion-ordered, values
`str | None`) is an association list with `Option String` values. -/
def extract_fields (text : String) : List (String × Option String) :=
  [("policy_number", first_group rePolicyNumber text),
   ("policyholder_name", first_group reName text),
   ("effective_dates", first_group reEffective text),
   ("incident_date", first_group reDate text),
   ("incident_time", first_group reTime text),
   ("incident_location", first_group reLocation text),
   ("incident_description", first_group reDescription text),
   ("claimant", first_group reClaimant text),
   ("third_parties", first_group reThird text),
   ("contact_details", first_group reContact text),
   ("asset_type", some "Vehicle"),
   ("asset_id", first_group reVin text),
   ("estimated_damage", first_group reEstimate text),
   ("claim_type", first_group reClaimType text),
   ("attachments", some (if (searchFrom reAttachment text.data).isSome then "Yes" else "Unknown")),
   ("initial_estimate", first_group reInitial text)]

/-- Python `f.get(k)`: `None` both for an absent key and for a stored
`None` value. -/
def pyGet (f : List (String × Option String)) (k : String) : Option String :=
  match f with
  | [] => none
  | (k', v) :: rest => if k' == k then v else pyGet rest k

/-- Embeds `find_missing_fields`: a field is missing when `f.get(k)` is
falsy (`None` or the empty string) or strips to the empty string. -/
def find_missing_fields (f : List (String × Option String)) : List String :=
  MANDATORY_FIELDS.filter (fun k =>
    match pyGet f k with
    | none => true
    | some s => s == "" || pyStrip s == "")

/-- Numeric value of a digit string (most significant first). -/
def natOfDigits (l : List Char) : Nat :=
  l.foldl (fun acc c => acc * 10 + (c.toNat - '0'.toNat)) 0

/-- Python `float(n)` for strings over digits and dots (what survives
`re.sub(r"[^\d\.]", "", s)`): defined iff there is at most one dot and
at least one digit; the value is exact (floats modelled as rationals). -/
def pyFloatOfDigits (n : List Char) : Option Rat :=
  if n.count '.' ≤ 1 && n.any (fun c => c.isDigit) then
    some ((natOfDigits (n.takeWhile (fun c => !(c == '.'))) : Rat)
      + (natOfDigits ((n.dropWhile (fun c => !(c == '.'))).drop 1) : Rat)
        / (10 : Rat) ^ ((n.dropWhile (fun c => !(c == '.'))).drop 1).length)
  else none

/-- Embeds `parse_amount`: strip every character that is not a digit or
a dot, then `float`, degrading to `0.0` on absence, emptiness, or a
`ValueError`. -/
def parse_amount (s : Option String) : Rat :=
  match s with
  | none => 0
  | some str =>
    if str == "" then 0
    else
      let n := str.data.filter (fun c => c.isDigit || c == '.')
      if n.isEmpty then 0
      else
        match pyFloatOfDigits n with
        | some v => v
        | none => 0

/-- Python `x or y` on `str | None` operands: `y` when `x` is falsy. -/
def pyOr (a b : Option String) : Option String :=
  match a with
  | some s => if s == "" then b else some s
  | none => b

/-- Fractional digits of a rational in `[0, 1)`, with fuel (used only to
render the amounts the program computes, which are short decimals). -/
def fracDigitsAux : Nat → Rat → List Char
  | 0, _ => []
  | fuel + 1, q =>
      if q = 0 then []
      else
        Char.ofNat (48 + (q * 10).floor.toNat)
          :: fracDigitsAux fuel (q * 10 - ((q * 10).floor : Rat))

/-- Python `str(float)` for the nonnegative decimal amounts produced by
`parse_amount` (e.g. `5000.0`, `12000.0`); always shows at least one
fractional digit, as Python does. -/
def pyFloatStr (q : Rat) : String :=
  let fl := fracDigitsAux 17 (q - (q.floor : Rat))
  toString q.floor ++ "." ++ (if fl.isEmpty then "0" else String.mk fl)

/-- Fraud keywords of the router. -/
def fraudWords : List String := ["fraud", "inconsistent", "staged"]

/-- Embeds `route_claim`: ordered, short-circuiting routing rules. -/
def route_claim (f : List (String × Option String)) (missing : List String) :
    String × String :=
  let desc := pyLower ((pyGet f "incident_description").getD "")
  let ctype := pyLower ((pyGet f "claim_type").getD "")
  let est := parse_amount (pyOr (pyGet f "estimated_damage") (pyGet f "initial_estimate"))
  if missing ≠ [] then
    ("Manual review", "Missing mandatory fields: " ++ String.intercalate ", " missing)
  else if fraudWords.any (fun w => substrIn w.data desc.data) then
    ("Investigation Flag", "Description contains potential fraud indicators.")
  else if substrIn "injury".data ctype.data then
    ("Specialist Queue", "Claim type indicates injury.")
  else if est ≠ 0 ∧ est < 25000 then
    ("Fast-track", "Estimated damage " ++ pyFloatStr est ++ " < 25000.")
  else
    ("Manual review", "No specific routing rule matched.")

/-- Result record of `process_fnol`. -/
structure FnolResult where
  extractedFields : List (String × Option String)
  missingFields : List String
  recommendedRoute : String
  reasoning : String
deriving Repr, DecidableEq

/-- Embeds `process_fnol` from the extracted text onward (`pdf_to_text`
is document I/O, outside the modelled core). -/
def process_fnol_text (text : String) : FnolResult :=
  let fields := extract_fields text
  let missing := find_missing_fields fields
  let rr := route_claim fields missing
  { extractedFields := fields, missingFields := missing,
    recommendedRoute := rr.1, reasoning := rr.2 }

/-! Spec-side characterizations and concrete fixtures used to state and
test the claims. -/

/-- Tail of `reName` / `reLocation` after the label literal:
`[^\n]*\n(.*)`. -/
def tailRestOfText : Re :=
  .cat (.starG notNLCh) (.cat (.cls nlCh) (.grp (.starG anyCh)))

/-- Stop alternation of the description pattern: `(?:\n[A-Z ]{5,}:|\Z)`. -/
def stopRe : Re :=
  .alt (.cat (.cls nlCh) (.cat (.repC letterSpaceCh 5 none) (.cls colonCh))) .zEnd

/-- Capture part of `reDescription` after the label line:
`(.+?)(?:\n[A-Z ]{5,}:|\Z)`. -/
def capDescription : Re :=
  .cat (.grp (.cat (.cls anyCh) (.starL anyCh))) stopRe

/-- Tail of `reDescription` after the label literal:
`[^\n]*\n(.+?)(?:\n[A-Z ]{5,}:|\Z)`. -/
def tailDescription : Re :=
  .cat (.starG notNLCh) (.cat (.cls nlCh) capDescription)

/-- Suffix position at which the description capture stops: end of
text, or a newline followed by five or more letters-or-spaces (either
case, because of `re.I`) and a colon. -/
def headingStop (r : List Char) : Bool :=
  match r with
  | [] => true
  | c :: r' =>
      c == '\n' && decide (5 ≤ (r'.takeWhile letterSpaceCh).length)
        && ((r'.dropWhile letterSpaceCh).head? == some ':')

/-- Lazy capture of `(.+?)` before the heading stop: the shortest
nonempty prefix (accumulated in `taken`) whose remainder is a
`headingStop` position. -/
def lazyCapture (taken : List Char) : List Char → List Char
  | [] => taken
  | c :: r => if headingStop (c :: r) then taken else lazyCapture (taken ++ [c]) r

/-- Priority-ordered results of the capturing group `(.+?)` of the
description pattern: capture so far paired with the remaining input,
shortest capture first. -/
def capList (taken : List Char) : List Char → List (List Char × Option (List Char))
  | [] => [([], some taken)]
  | c :: r => (c :: r, some taken) :: capList (taken ++ [c]) r

/-- An extracted-fields mapping with every catalog key present, the
four routing-relevant fields parameterized. -/
def sampleFields (desc ctype dmg init : Option String) :
    List (String × Option String) :=
  [("policy_number", some "PN-12345"),
   ("policyholder_name", some "John Doe"),
   ("effective_dates", some "01/01/2016 to 01/01/2017"),
   ("incident_date", some "12/05/2016"),
   ("incident_time", some "9:30 AM"),
   ("incident_location", some "12 Main St"),
   ("incident_description", desc),
   ("claimant", some "John Doe"),
   ("third_parties", some "None"),
   ("contact_details", some "555-1234"),
   ("asset_type", some "Vehicle"),
   ("asset_id", some "1HGCM82633A004352"),
   ("estimated_damage", dmg),
   ("claim_type", ctype),
   ("attachments", some "Yes"),
   ("initial_estimate", init)]

/-- Fixture for the fraud-precedence test: staged-accident description,
injury claim type, small nonzero estimate. -/
def fraudFields : List (String × Option String) :=
  sampleFields (some "Driver staged the crash") (some "Bodily Injury")
    (some "$3,000") (some "$1,000")

/-- Fixture for the unparsable-estimate test. -/
def naFields : List (String × Option String) :=
  sampleFields (some "Rear ended at a red light") (some "Auto Collision")
    (some "N/A") (some "$5,000")

/-- Fixture for the absent-estimate fallback test: `estimated_damage`
absent, everything else innocuous. -/
def fallbackFields : List (String × Option String) :=
  sampleFields (some "Rear ended at a red light") (some "Auto Collision")
    none (some "$5,000")

/-- Document whose insured-name label is followed by two more lines. -/
def nameText : String := "NAME OF INSURED\nJohn\nX"

/-- Document whose description is followed by a lowercase heading. -/
def descText : String := "DESCRIPTION OF ACCIDENT\nCar hit pole\nnotes here: x"

/-! General lemmas about the matcher. -/

theorem map_mcap_none (l : List (List Char × Option (List Char))) :
    l.map (fun rg => (rg.1, mcap none rg.2)) = l := by
  induction l with
  | nil => rfl
  | cons a t ih => simp [mcap, ih]

theorem flatMap_eq_nil_of_forall {α β : Type} (f : α → List β) :
    ∀ l : List α, (∀ a ∈ l, f a = []) → l.flatMap f = [] := by
  intro l h
  induction l with
  | nil => rfl
  | cons a t ih =>
      rw [List.flatMap_cons, h a (by simp), List.nil_append]
      exact ih fun x hx => h x (by simp [hx])

theorem dropWhile_append_stop (p : Char → Bool) (x : Char) (hx : p x = false) :
    ∀ (l1 l2 : List Char), (∀ c ∈ l1, p c = true) →
      (l1 ++ x :: l2).dropWhile p = x :: l2 := by
  intro l1 l2 h
  induction l1 with
  | nil => simp [List.dropWhile_cons, hx]
  | cons a t ih =>
      rw [List.cons_append, List.dropWhile_cons, if_pos (h a (by simp))]
      exact ih fun c hc => h c (by simp [hc])

theorem drop_takeWhile_len (p : Char → Bool) :
    ∀ l : List Char, l.drop ((l.takeWhile p).length) = l.dropWhile p := by
  intro l
  induction l with
  | nil => rfl
  | cons a t ih =>
      rw [List.takeWhile_cons, List.dropWhile_cons]
      by_cases hp : p a = true
      · rw [if_pos hp, if_pos hp, List.length_cons, List.drop_succ_cons, ih]
      · rw [if_neg hp, if_neg hp, List.length_nil, List.drop_zero]

theorem drop_head_in_run (p : Char → Bool) :
    ∀ (l : List Char) (k : Nat), k < (l.takeWhile p).length →
      ∃ c t, l.drop k = c :: t ∧ p c = true := by
  intro l
  induction l with
  | nil => intro k hk; simp at hk
  | cons a t ih =>
      intro k hk
      rw [List.takeWhile_cons] at hk
      by_cases hp : p a = true
      · rw [if_pos hp] at hk
        cases k with
        | zero => exact ⟨a, t, rfl, hp⟩
        | succ k' =>
            rw [List.drop_succ_cons]
            exact ih k' (by simpa using hk)
      · rw [if_neg hp] at hk; simp at hk

theorem takeWhile_anyCh (l : List Char) : l.takeWhile anyCh = l := by
  induction l with
  | nil => rfl
  | cons a t ih => simp [List.takeWhile_cons, anyCh, ih]

theorem range_succ_reverse (n : Nat) :
    (List.range (n + 1)).reverse = n :: (List.range n).reverse := by
  rw [List.range_succ, List.reverse_append]; rfl

theorem ciPrefixOf_self_append : ∀ (w t : List Char), ciPrefixOf w (w ++ t) = true := by
  intro w t
  induction w with
  | nil => rfl
  | cons c cs ih => simp [ciPrefixOf, ih]

theorem mrun_litsL (w : List Char) :
    ∀ s, mrun (litsL w) s =
      if ciPrefixOf w s then [(s.drop w.length, none)] else [] := by
  induction w with
  | nil => intro s; simp [litsL, mrun, ciPrefixOf]
  | cons c cs ih =>
      intro s
      cases s with
      | nil => simp [litsL, mrun, ciPrefixOf]
      | cons d ds =>
          by_cases h : (c.toLower == d.toLower) = true
          · simp only [litsL, mrun, ciCh, h, if_true, ciPrefixOf, Bool.true_and,
              List.flatMap_cons, List.flatMap_nil, List.append_nil, ih]
            by_cases h2 : ciPrefixOf cs ds = true
            · simp [h2, mcap, List.length_cons, List.drop_succ_cons]
            · simp [h2]
          · simp [litsL, mrun, ciCh, h, ciPrefixOf]

theorem searchFrom_head_some (r : Re) (s : List Char) (res : List Char × Option (List Char))
    (h : (mrun r s).head? = some res) : searchFrom r s = some res.2 := by
  cases s with
  | nil => simp [searchFrom, h]
  | cons c cs => simp [searchFrom, h]

theorem searchFrom_empty_step (r : Re) (c : Char) (cs : List Char)
    (h : mrun r (c :: cs) = []) : searchFrom r (c :: cs) = searchFrom r cs := by
  simp [searchFrom, h]

/-- Matching a greedy class star that cannot cross the stop character
`q` (the complement of `p`): the star commits to the full `p`-run, after
which `q` must consume one character. -/
theorem mrun_starG_stop (p q : Char → Bool) (hq : ∀ c, q c = !(p c)) (X : Re) :
    ∀ s, mrun (.cat (.starG p) (.cat (.cls q) X)) s =
      match s.dropWhile p with
      | [] => []
      | _ :: b => mrun X b := by
  intro s
  induction s with
  | nil => simp [mrun]
  | cons c s' ih =>
      by_cases hp : p c = true
      · have hqc : q c = false := by rw [hq c, hp, Bool.not_true]
        rw [List.dropWhile_cons, if_pos hp]
        have hstep : mrun (.cat (.starG p) (.cat (.cls q) X)) (c :: s') =
            mrun (.cat (.starG p) (.cat (.cls q) X)) s' := by
          simp only [mrun, List.takeWhile_cons, hp, if_true, List.length_cons]
          rw [List.range_succ_eq_map, List.reverse_cons, ← List.map_reverse,
            List.map_append, List.map_map, List.flatMap_append]
          have hcomp : ((fun k => ((c :: s').drop k, (none : Option (List Char))))
              ∘ Nat.succ) = fun k => (s'.drop k, (none : Option (List Char))) := by
            funext k; rfl
          rw [hcomp]
          simp [hqc]
        rw [hstep, ih]
      · have hpc : p c = false := by
          cases hp2 : p c with
          | false => rfl
          | true => exact absurd hp2 hp
        have hqc : q c = true := by rw [hq c, hpc, Bool.not_false]
        rw [List.dropWhile_cons, if_neg hp]
        simp [mrun, hpc, hqc, mcap, List.takeWhile_cons, List.range_succ,
          List.range_zero, Prod.mk.eta]

theorem nlCh_compl : ∀ c, nlCh c = !(notNLCh c) := by
  intro c; simp [nlCh, notNLCh]

/-- A pattern `LABEL …tail` matched at the first (case-insensitive)
occurrence of the label: the search commits to that position and the
tail's first result there. -/
theorem searchFrom_labelled (lab : List Char) (tail : Re)
    (res : List Char × Option (List Char)) :
    ∀ (pre rest2 : List Char),
      firstOcc lab (pre ++ rest2) = some pre.length →
      ciPrefixOf lab rest2 = true →
      (mrun tail (rest2.drop lab.length)).head? = some res →
      searchFrom (.cat (litsL lab) tail) (pre ++ rest2) = some res.2 := by
  intro pre
  induction pre with
  | nil =>
      intro rest2 hfo hci hres
      rw [List.nil_append]
      have hmeq : mrun (.cat (litsL lab) tail) rest2 =
          mrun tail (rest2.drop lab.length) := by
        simp only [mrun, mrun_litsL, hci, if_true, List.flatMap_cons,
          List.flatMap_nil, List.append_nil]
        exact map_mcap_none _
      exact searchFrom_head_some _ _ _ (by rw [hmeq, hres])
  | cons c pre' ih =>
      intro rest2 hfo hci hres
      by_cases hci2 : ciPrefixOf lab (c :: (pre' ++ rest2)) = true
      · rw [List.cons_append] at hfo
        simp [firstOcc, hci2] at hfo
      · have hfo' : firstOcc lab (pre' ++ rest2) = some pre'.length := by
          rw [List.cons_append] at hfo
          have hmap : (firstOcc lab (pre' ++ rest2)).map (· + 1) =
              some (pre'.length + 1) := by
            simpa [firstOcc, hci2] using hfo
          rcases Option.map_eq_some'.mp hmap with ⟨n, hn, hadd⟩
          have : n = pre'.length := by omega
          rw [← this]; exact hn
        have hmnil : mrun (.cat (litsL lab) tail) (c :: (pre' ++ rest2)) = [] := by
          simp [mrun, mrun_litsL, hci2]
        rw [List.cons_append, searchFrom_empty_step _ _ _ hmnil]
        exact ih rest2 hfo' hci hres

/-- If the label never occurs (case-insensitively), a `LABEL …tail`
search fails. -/
theorem searchFrom_labelled_none (lab : List Char) (tail : Re) :
    ∀ s, firstOcc lab s = none → searchFrom (.cat (litsL lab) tail) s = none := by
  intro s
  induction s with
  | nil =>
      intro hfo
      have hci : ciPrefixOf lab [] = false := by
        cases lab with
        | nil => simp [firstOcc, listPrefixOf] at hfo
        | cons a l => rfl
      simp [searchFrom, mrun, mrun_litsL, hci]
  | cons c cs ih =>
      intro hfo
      have hci2 : ciPrefixOf lab (c :: cs) = false := by
        cases h : ciPrefixOf lab (c :: cs) with
        | false => rfl
        | true => simp [firstOcc, h] at hfo
      have hrest : firstOcc lab cs = none := by
        cases h : firstOcc lab cs with
        | none => rfl
        | some n => simp [firstOcc, hci2, h] at hfo
      have hmnil : mrun (.cat (litsL lab) tail) (c :: cs) = [] := by
        simp [mrun, mrun_litsL, hci2]
      rw [searchFrom_empty_step _ _ _ hmnil]
      exact ih hrest

/-- The greedy DOTALL group `(.*)` commits to capturing the entire
remaining input. -/
theorem mrun_grp_starG_any_head (b : List Char) :
    (mrun (.grp (.starG anyCh)) b).head? = some ([], some b) := by
  simp [mrun, takeWhile_anyCh, range_succ_reverse, List.drop_length,
    List.take_length]

/-- The tail `[^\n]*\n(.*)` of the name/location patterns: consume the
rest of the label line, the newline, and capture everything after. -/
theorem mrun_tailRestOfText_head (mid b : List Char)
    (hmid : ∀ c ∈ mid, notNLCh c = true) :
    (mrun tailRestOfText (mid ++ '\n' :: b)).head? = some ([], some b) := by
  have hstop := mrun_starG_stop notNLCh nlCh nlCh_compl
    (.grp (.starG anyCh)) (mid ++ '\n' :: b)
  rw [show tailRestOfText =
      .cat (.starG notNLCh) (.cat (.cls nlCh) (.grp (.starG anyCh))) from rfl,
    hstop, dropWhile_append_stop notNLCh '\n' (by simp [notNLCh]) mid b hmid]
  exact mrun_grp_starG_any_head b

/-- Letters and spaces are never the colon that ends a heading. -/
theorem letterSpace_not_colon (c : Char) (h : letterSpaceCh c = true) :
    colonCh c = false := by
  cases hc : (c == ':') with
  | false => simp [colonCh, hc]
  | true =>
      have hce : c = ':' := beq_iff_eq.mp hc
      rw [hce] at h
      exact absurd h (by decide)

/-- The heading matcher `[A-Z ]{5,}:` (greedy, under `re.I`) succeeds
exactly when the run of letters/spaces has length at least five and is
immediately followed by a colon; the colon can only sit at the end of
the run. -/
theorem mrun_repC_colon (r' : List Char) :
    mrun (.cat (.repC letterSpaceCh 5 none) (.cls colonCh)) r' =
      if 5 ≤ (r'.takeWhile letterSpaceCh).length ∧
          (r'.dropWhile letterSpaceCh).head? = some ':' then
        [((r'.dropWhile letterSpaceCh).drop 1, (none : Option (List Char)))]
      else [] := by
  have hcat : mrun (.cat (.repC letterSpaceCh 5 none) (.cls colonCh)) r' =
      (mrun (.repC letterSpaceCh 5 none) r').flatMap
        (fun rg => (mrun (.cls colonCh) rg.1).map
          (fun rg2 => (rg2.1, mcap rg.2 rg2.2))) := rfl
  have hrep : mrun (.repC letterSpaceCh 5 none) r' =
      if 5 ≤ (r'.takeWhile letterSpaceCh).length then
        ((List.range' 5 ((r'.takeWhile letterSpaceCh).length + 1 - 5)).reverse).map
          (fun k => (r'.drop k, (none : Option (List Char))))
      else [] := rfl
  rw [hcat, hrep]
  by_cases h5 : 5 ≤ (r'.takeWhile letterSpaceCh).length
  · rw [if_pos h5]
    have hsplit : List.range' 5 ((r'.takeWhile letterSpaceCh).length + 1 - 5) =
        List.range' 5 ((r'.takeWhile letterSpaceCh).length - 5) ++
          [(r'.takeWhile letterSpaceCh).length] := by
      have h1 : (r'.takeWhile letterSpaceCh).length + 1 - 5 =
          ((r'.takeWhile letterSpaceCh).length - 5) + 1 := by omega
      rw [h1, List.range'_concat]
      have h2 : 5 + 1 * ((r'.takeWhile letterSpaceCh).length - 5) =
          (r'.takeWhile letterSpaceCh).length := by omega
      rw [h2]
    rw [hsplit, List.reverse_append]
    have hrest0 : (((List.range' 5 ((r'.takeWhile letterSpaceCh).length - 5)).reverse).map
        (fun k => (r'.drop k, (none : Option (List Char))))).flatMap
          (fun rg => (mrun (.cls colonCh) rg.1).map
            (fun rg2 => (rg2.1, mcap rg.2 rg2.2))) = [] := by
      apply flatMap_eq_nil_of_forall
      intro a ha
      rcases List.mem_map.mp ha with ⟨k, hk, rfl⟩
      rw [List.mem_reverse] at hk
      rcases List.mem_range'.mp hk with ⟨i, hi, rfl⟩
      have hklt : 5 + 1 * i < (r'.takeWhile letterSpaceCh).length := by omega
      rcases drop_head_in_run letterSpaceCh r' (5 + 1 * i) hklt with ⟨ch, tl, hdrop, hls⟩
      simp only [hdrop]
      simp [mrun, letterSpace_not_colon ch hls]
    rw [show ([(r'.takeWhile letterSpaceCh).length].reverse ++
          (List.range' 5 ((r'.takeWhile letterSpaceCh).length - 5)).reverse).map
          (fun k => (r'.drop k, (none : Option (List Char)))) =
        (r'.drop (r'.takeWhile letterSpaceCh).length, (none : Option (List Char))) ::
          ((List.range' 5 ((r'.takeWhile letterSpaceCh).length - 5)).reverse).map
            (fun k => (r'.drop k, (none : Option (List Char)))) from by simp]
    rw [List.flatMap_cons, hrest0, List.append_nil, drop_takeWhile_len]
    cases hdw : r'.dropWhile letterSpaceCh with
    | nil => simp [mrun, h5]
    | cons d t =>
        by_cases hd : d = ':'
        · rw [hd]
          simp [mrun, colonCh, h5, mcap]
        · have hdc : colonCh d = false := by
            cases hceq : (d == ':') with
            | false => simp [colonCh, hceq]
            | true => exact absurd (beq_iff_eq.mp hceq) hd
          simp [mrun, hdc, h5, hd]
  · rw [if_neg h5]
    simp [h5]

theorem headingStop_cons_iff (c : Char) (r' : List Char) :
    headingStop (c :: r') = true ↔
      (c = '\n' ∧ 5 ≤ (r'.takeWhile letterSpaceCh).length ∧
        (r'.dropWhile letterSpaceCh).head? = some ':') := by
  simp [headingStop, Bool.and_eq_true, decide_eq_true_eq, beq_iff_eq, and_assoc]

/-- The stop alternation succeeds at a `headingStop` position. -/
theorem mrun_stopRe_ne_nil (r : List Char) (h : headingStop r = true) :
    mrun stopRe r ≠ [] := by
  cases r with
  | nil => simp [stopRe, mrun]
  | cons c r' =>
      rcases (headingStop_cons_iff c r').mp h with ⟨hc, h5, hcol⟩
      rw [hc]
      have hunfold : mrun stopRe ('\n' :: r') =
          (((mrun (.cat (.repC letterSpaceCh 5 none) (.cls colonCh)) r').map
            (fun rg2 => (rg2.1, mcap none rg2.2))) ++ []) ++ [] := rfl
      rw [hunfold, mrun_repC_colon, if_pos ⟨h5, hcol⟩]
      simp

/-- The stop alternation fails away from `headingStop` positions. -/
theorem mrun_stopRe_nil (r : List Char) (h : headingStop r = false) :
    mrun stopRe r = [] := by
  cases r with
  | nil => simp [headingStop] at h
  | cons c r' =>
      by_cases hc : c = '\n'
      · rw [hc]
        have hcond : ¬ (5 ≤ (r'.takeWhile letterSpaceCh).length ∧
            (r'.dropWhile letterSpaceCh).head? = some ':') := by
          intro hP
          have hT := (headingStop_cons_iff '\n' r').mpr ⟨rfl, hP.1, hP.2⟩
          rw [hc] at h
          rw [hT] at h
          simp at h
        have hunfold : mrun stopRe ('\n' :: r') =
            (((mrun (.cat (.repC letterSpaceCh 5 none) (.cls colonCh)) r').map
              (fun rg2 => (rg2.1, mcap none rg2.2))) ++ []) ++ [] := rfl
        rw [hunfold, mrun_repC_colon, if_neg hcond]
        rfl
      · have hnl : nlCh c = false := by
          cases hceq : (c == '\n') with
          | false => simp [nlCh, hceq]
          | true => exact absurd (beq_iff_eq.mp hceq) hc
        simp [stopRe, mrun, hnl]

/-- Scanning the lazy-capture alternatives in priority order, the first
one whose remainder is a `headingStop` position wins, and its capture is
`lazyCapture`. -/
theorem capList_stopRe_head :
    ∀ (r taken : List Char),
      ∃ rest, ((capList taken r).flatMap
        (fun rg => (mrun stopRe rg.1).map
          (fun rg2 => (rg2.1, mcap rg.2 rg2.2)))).head? =
        some (rest, some (lazyCapture taken r)) := by
  intro r
  induction r with
  | nil =>
      intro taken
      exact ⟨[], rfl⟩
  | cons c r' ih =>
      intro taken
      by_cases hstop : headingStop (c :: r') = true
      · have hne := mrun_stopRe_ne_nil (c :: r') hstop
        rcases hx : mrun stopRe (c :: r') with _ | ⟨x, xs⟩
        · exact absurd hx hne
        · refine ⟨x.1, ?_⟩
          rw [show capList taken (c :: r') =
              (c :: r', some taken) :: capList (taken ++ [c]) r' from rfl,
            List.flatMap_cons]
          simp only [hx, List.map_cons]
          simp [lazyCapture, hstop, mcap]
      · have hsf : headingStop (c :: r') = false := by
          cases h2 : headingStop (c :: r') with
          | true => exact absurd h2 hstop
          | false => rfl
        have hnil := mrun_stopRe_nil (c :: r') hsf
        rcases ih (taken ++ [c]) with ⟨rest, hrest⟩
        refine ⟨rest, ?_⟩
        rw [show capList taken (c :: r') =
            (c :: r', some taken) :: capList (taken ++ [c]) r' from rfl,
          List.flatMap_cons, hnil]
        simp only [List.map_nil, List.nil_append]
        rw [hrest]
        simp [lazyCapture, hsf]

/-- The alternatives of the capturing group `(.+?)` (one character, then
a lazy any-star), enumerated shortest first, are `capList`. -/
theorem capList_eq :
    ∀ (r taken : List Char),
      (List.range (r.length + 1)).map
        (fun k => (r.drop k, some (taken ++ r.take k))) = capList taken r := by
  intro r
  induction r with
  | nil =>
      intro taken
      simp [capList, List.range_succ]
  | cons d r'' ih =>
      intro taken
      rw [show capList taken (d :: r'') =
          (d :: r'', some taken) :: capList (taken ++ [d]) r'' from rfl,
        List.length_cons, List.range_succ_eq_map, List.map_cons, List.map_map]
      have hcomp : ((fun k => ((d :: r'').drop k, some (taken ++ (d :: r'').take k)))
          ∘ Nat.succ) = fun k => (r''.drop k, some ((taken ++ [d]) ++ r''.take k)) := by
        funext k
        simp [List.take_succ_cons, List.drop_succ_cons, List.append_assoc]
      rw [hcomp, ih (taken ++ [d])]
      simp

/-- The group `(.+?)` of the description pattern enumerates exactly the
`capList` alternatives. -/
theorem mrun_grpLazy_eq_capList (c : Char) (b' : List Char) :
    mrun (.grp (.cat (.cls anyCh) (.starL anyCh))) (c :: b') = capList [c] b' := by
  have hinner : mrun (.cat (.cls anyCh) (.starL anyCh)) (c :: b') =
      (List.range (b'.length + 1)).map
        (fun k => (b'.drop k, (none : Option (List Char)))) := by
    simp [mrun, anyCh, mcap, takeWhile_anyCh, Prod.mk.eta]
  rw [show mrun (.grp (.cat (.cls anyCh) (.starL anyCh))) (c :: b') =
      (mrun (.cat (.cls anyCh) (.starL anyCh)) (c :: b')).map
        (fun rg => (rg.1, some ((c :: b').take ((c :: b').length - rg.1.length))))
      from rfl,
    hinner, List.map_map, ← capList_eq b' [c]]
  apply List.map_congr_left
  intro k hk
  rw [List.mem_range] at hk
  simp only [Function.comp_apply]
  rw [List.length_drop, List.length_cons]
  have harith : b'.length + 1 - (b'.length - k) = k + 1 := by omega
  rw [harith]
  rfl

/-- The tail `[^\n]*\n(.+?)(?:\n[A-Z ]{5,}:|\Z)` of the description
pattern: skip to the end of the label line, consume the newline, then
commit to the lazy capture `lazyCapture`. -/
theorem mrun_tailDescription_head (mid : List Char) (c : Char) (b' : List Char)
    (hmid : ∀ x ∈ mid, notNLCh x = true) :
    ∃ rest, (mrun tailDescription (mid ++ '\n' :: c :: b')).head? =
      some (rest, some (lazyCapture [c] b')) := by
  have hcap : mrun capDescription (c :: b') =
      (capList [c] b').flatMap
        (fun rg => (mrun stopRe rg.1).map
          (fun rg2 => (rg2.1, mcap rg.2 rg2.2))) := by
    rw [show mrun capDescription (c :: b') =
        (mrun (.grp (.cat (.cls anyCh) (.starL anyCh))) (c :: b')).flatMap
          (fun rg => (mrun stopRe rg.1).map
            (fun rg2 => (rg2.1, mcap rg.2 rg2.2))) from rfl,
      mrun_grpLazy_eq_capList]
  rcases capList_stopRe_head b' [c] with ⟨rest, hrest⟩
  refine ⟨rest, ?_⟩
  have hstop := mrun_starG_stop notNLCh nlCh nlCh_compl
    capDescription (mid ++ '\n' :: c :: b')
  rw [show tailDescription =
      .cat (.starG notNLCh) (.cat (.cls nlCh) capDescription) from rfl,
    hstop, dropWhile_append_stop notNLCh '\n' (by simp [notNLCh]) mid _ hmid]
  show (mrun capDescription (c :: b')).head? = some (rest, some (lazyCapture [c] b'))
  rw [hcap]
  exact hrest

/-- A `LABEL[^\n]*\n(.*)` search on a text whose first label occurrence
is followed (on the same line) only by non-newline characters and then a
newline: the capture is everything after that newline. -/
theorem labelled_restOfText_spec (lab : String) (pre mid post s : List Char)
    (hs : s = pre ++ (lab.data ++ (mid ++ '\n' :: post)))
    (hfo : firstOcc lab.data s = some pre.length)
    (hmid : ∀ c ∈ mid, notNLCh c = true) :
    searchFrom (.cat (litsL lab.data) tailRestOfText) s = some (some post) := by
  subst hs
  have hhead := mrun_tailRestOfText_head mid post hmid
  have hdrop : (lab.data ++ (mid ++ '\n' :: post)).drop lab.data.length =
      mid ++ '\n' :: post := List.drop_left _ _
  have hres := searchFrom_labelled lab.data tailRestOfText ([], some post) pre
    (lab.data ++ (mid ++ '\n' :: post)) hfo (ciPrefixOf_self_append _ _)
    (by rw [hdrop]; exact hhead)
  simpa using hres

/-- Evaluation scheme for `pyFloatOfDigits` (the `Rat` arithmetic is
left symbolic because kernel reduction stops at `Rat` operations). -/
theorem pyFloatOfDigits_eval (n ip fp : List Char) (a b : Nat)
    (h1 : (n.count '.' ≤ 1 && n.any (fun c => c.isDigit)) = true)
    (h2 : n.takeWhile (fun c => !(c == '.')) = ip)
    (h3 : (n.dropWhile (fun c => !(c == '.'))).drop 1 = fp)
    (h4 : natOfDigits ip = a) (h5 : natOfDigits fp = b) :
    pyFloatOfDigits n = some ((a : Rat) + (b : Rat) / (10 : Rat) ^ fp.length) := by
  simp only [pyFloatOfDigits]
  rw [if_pos h1, h2, h3, h4, h5]

/-- Evaluation scheme for `parse_amount` on a parsable amount. -/
theorem parse_amount_eval (str : String) (n : List Char) (v : Rat)
    (hne : (str == "") = false)
    (hfil : str.data.filter (fun c => c.isDigit || c == '.') = n)
    (hnemp : n.isEmpty = false)
    (hfd : pyFloatOfDigits n = some v) :
    parse_amount (some str) = v := by
  simp only [parse_amount]
  rw [if_neg (by simp [hne]), hfil, if_neg (by simp [hnemp]), hfd]

theorem parse_amount_dollar3000 : parse_amount (some "$3,000") = 3000 := by
  rw [parse_amount_eval "$3,000" "3000".data
    ((3000 : Nat) + ((0 : Nat) : Rat) / (10 : Rat) ^ (([] : List Char).length))
    (by decide) (by decide) (by decide)
    (pyFloatOfDigits_eval "3000".data "3000".data [] 3000 0
      (by decide) (by decide) (by decide) (by decide) (by decide))]
  norm_num

theorem parse_amount_dollar5000 : parse_amount (some "$5,000") = 5000 := by
  rw [parse_amount_eval "$5,000" "5000".data
    ((5000 : Nat) + ((0 : Nat) : Rat) / (10 : Rat) ^ (([] : List Char).length))
    (by decide) (by decide) (by decide)
    (pyFloatOfDigits_eval "5000".data "5000".data [] 5000 0
      (by decide) (by decide) (by decide) (by decide) (by decide))]
  norm_num

theorem parse_amount_dollar123456 :
    parse_amount (some "$1,234.56") = (1234.56 : Rat) := by
  rw [parse_amount_eval "$1,234.56" "1234.56".data
    ((1234 : Nat) + ((56 : Nat) : Rat) / (10 : Rat) ^ ("56".data.length))
    (by decide) (by decide) (by decide)
    (pyFloatOfDigits_eval "1234.56".data "1234".data "56".data 1234 56
      (by decide) (by decide) (by decide) (by decide) (by decide))]
  rw [show ("56".data.length) = 2 from rfl]
  norm_num

theorem pyFloatStr_5000 : pyFloatStr 5000 = "5000.0" := by
  simp only [pyFloatStr]
  rw [show Rat.floor (5000 : Rat) = 5000 from by decide,
    show (5000 : Rat) - ((5000 : Int) : Rat) = 0 from by norm_num,
    show fracDigitsAux 17 0 = [] from by simp [fracDigitsAux]]
  decide

/-! Claim theorems. -/

/-- C1: whenever the missing-field list is non-empty, `route_claim`
returns `Manual review` with the missing names comma-joined, no matter
what any other field holds; the pipeline's missing list is a sublist of
the catalog, so those names appear in catalog order. -/
theorem route_claim_missing_highest_precedence
    (f : List (String × Option String)) (missing : List String)
    (h : missing ≠ []) :
    route_claim f missing =
      ("Manual review", "Missing mandatory fields: " ++
        String.intercalate ", " missing) ∧
    List.Sublist (find_missing_fields f) MANDATORY_FIELDS := by
  refine ⟨?_, List.filter_sublist _⟩
  simp [route_claim, h]

theorem route_claim_missing_highest_precedence_witness :
    (["policy_number"] : List String) ≠ [] ∧
    (route_claim [] ["policy_number"] =
      ("Manual review", "Missing mandatory fields: " ++
        String.intercalate ", " ["policy_number"]) ∧
     List.Sublist (find_missing_fields []) MANDATORY_FIELDS) :=
  ⟨by decide, route_claim_missing_highest_precedence [] ["policy_number"] (by decide)⟩

/-- C2: with no missing fields, a fraud keyword in the case-folded
description routes to `Investigation Flag` regardless of claim type or
estimate (the fraud rule precedes the injury and amount rules). -/
theorem route_claim_fraud_precedes_injury_and_amount
    (f : List (String × Option String))
    (hm : find_missing_fields f = [])
    (hfraud : fraudWords.any (fun w =>
        substrIn w.data (pyLower ((pyGet f "incident_description").getD "")).data)
      = true) :
    route_claim f (find_missing_fields f) =
      ("Investigation Flag", "Description contains potential fraud indicators.") := by
  rw [hm]
  simp [route_claim, hfraud]

theorem route_claim_fraud_precedes_injury_and_amount_witness :
    find_missing_fields fraudFields = [] ∧
    substrIn "injury".data (pyLower ((pyGet fraudFields "claim_type").getD "")).data
      = true ∧
    parse_amount (pyOr (pyGet fraudFields "estimated_damage")
      (pyGet fraudFields "initial_estimate")) ≠ 0 ∧
    parse_amount (pyOr (pyGet fraudFields "estimated_damage")
      (pyGet fraudFields "initial_estimate")) < 25000 ∧
    route_claim fraudFields (find_missing_fields fraudFields) =
      ("Investigation Flag", "Description contains potential fraud indicators.") := by
  have hest : parse_amount (pyOr (pyGet fraudFields "estimated_damage")
      (pyGet fraudFields "initial_estimate")) = 3000 := by
    rw [show pyOr (pyGet fraudFields "estimated_damage")
        (pyGet fraudFields "initial_estimate") = some "$3,000" from rfl]
    exact parse_amount_dollar3000
  refine ⟨by decide, by decide, by rw [hest]; norm_num, by rw [hest]; norm_num,
    route_claim_fraud_precedes_injury_and_amount fraudFields (by decide) (by decide)⟩

/-- C3: `parse_amount` is total, agrees with the four cited examples,
and returns 0 whenever the digit-and-dot remainder is empty or not a
valid float literal. -/
theorem parse_amount_total_spec :
    parse_amount none = 0 ∧
    parse_amount (some "$1,234.56") = (1234.56 : Rat) ∧
    parse_amount (some "abc") = 0 ∧
    parse_amount (some "") = 0 ∧
    ∀ s : String,
      (s.data.filter (fun c => c.isDigit || c == '.') = [] ∨
        pyFloatOfDigits (s.data.filter (fun c => c.isDigit || c == '.')) = none) →
      parse_amount (some s) = 0 := by
  refine ⟨by decide, parse_amount_dollar123456, by decide, by decide, ?_⟩
  intro s h
  simp only [parse_amount]
  by_cases hs : (s == "") = true
  · rw [if_pos hs]
  · rw [if_neg hs]
    rcases h with h | h
    · simp [h]
    · by_cases hn : (s.data.filter (fun c => c.isDigit || c == '.')).isEmpty = true
      · simp [hn]
      · simp [hn, h]

theorem parse_amount_total_spec_witness :
    pyFloatOfDigits ("x1.2.3z".data.filter (fun c => c.isDigit || c == '.')) = none ∧
    parse_amount (some "x1.2.3z") = 0 :=
  ⟨by decide, parse_amount_total_spec.2.2.2.2 "x1.2.3z" (Or.inr (by decide))⟩

/-- C4: for every input text, every catalog key is present in the
extracted mapping (extraction is total; a failed pattern just stores an
absent value). -/
theorem extract_fields_catalog_keys_present (text : String) (k : String)
    (hk : k ∈ MANDATORY_FIELDS) :
    ((extract_fields text).lookup k).isSome = true := by
  simp only [MANDATORY_FIELDS, List.mem_cons, List.not_mem_nil, or_false] at hk
  rcases hk with rfl | rfl | rfl | rfl | rfl | rfl | rfl | rfl | rfl | rfl | rfl |
    rfl | rfl | rfl | rfl | rfl <;> rfl

theorem extract_fields_catalog_keys_present_witness :
    ("incident_description" ∈ MANDATORY_FIELDS) ∧
    ((extract_fields "").lookup "incident_description").isSome = true :=
  ⟨by decide, extract_fields_catalog_keys_present "" "incident_description" (by decide)⟩

/-- C5: the missing-field list is exactly the catalog keys whose value
is absent or blank after trimming, kept in catalog order (it is a
sublist of the catalog), and contains nothing else. -/
theorem find_missing_fields_catalog_subset_spec (f : List (String × Option String)) :
    List.Sublist (find_missing_fields f) MANDATORY_FIELDS ∧
    ∀ k, k ∈ find_missing_fields f ↔
      (k ∈ MANDATORY_FIELDS ∧
        (pyGet f k = none ∨ ∃ s, pyGet f k = some s ∧ pyStrip s = "")) := by
  refine ⟨List.filter_sublist _, fun k => ?_⟩
  rw [find_missing_fields, List.mem_filter]
  apply and_congr_right
  intro _
  cases hv : pyGet f k with
  | none => simp
  | some s =>
      show (s == "" || pyStrip s == "") = true ↔ _
      simp only [Bool.or_eq_true, beq_iff_eq, Option.some.injEq]
      constructor
      · rintro (rfl | h)
        · exact Or.inr ⟨"", rfl, by decide⟩
        · exact Or.inr ⟨s, rfl, h⟩
      · rintro (hno | ⟨s', hss, hstrip⟩)
        · exact absurd hno (by simp)
        · rw [hss]
          exact Or.inr hstrip
/-- C6: with a present-but-unparsable `estimated_damage` of `"N/A"`, the
fallback to `initial_estimate` is not consulted (the Python `or` only
falls through on a falsy value, and `"N/A"` is truthy), so the estimate
is `0`, the amount rule fails, and the claim falls to `Manual review`. -/
theorem route_claim_unparsable_estimate_manual_review
    (f : List (String × Option String))
    (hd : pyGet f "estimated_damage" = some "N/A")
    (hi : pyGet f "initial_estimate" = some "$5,000")
    (hm : find_missing_fields f = [])
    (hfraud : fraudWords.any (fun w =>
        substrIn w.data (pyLower ((pyGet f "incident_description").getD "")).data)
      = false)
    (hinj : substrIn "injury".data (pyLower ((pyGet f "claim_type").getD "")).data
      = false) :
    route_claim f (find_missing_fields f) =
      ("Manual review", "No specific routing rule matched.") := by
  rw [hm]
  have hest : parse_amount (pyOr (pyGet f "estimated_damage")
      (pyGet f "initial_estimate")) = 0 := by
    rw [hd, hi]
    decide
  simp [route_claim, hfraud, hinj, hest]

theorem route_claim_unparsable_estimate_manual_review_witness :
    find_missing_fields naFields = [] ∧
    route_claim naFields (find_missing_fields naFields) =
      ("Manual review", "No specific routing rule matched.") :=
  ⟨by decide, route_claim_unparsable_estimate_manual_review naFields
    (by decide) (by decide) (by decide) (by decide) (by decide)⟩

/-- C7 counterexample: with `estimated_damage` absent (and every other
catalog field present, no fraud keywords, no injury claim type), the
pipeline does NOT fast-track using the `initial_estimate` fallback:
`estimated_damage` is itself a missing mandatory field, so the
missing-fields rule fires first and the claim goes to `Manual review`. -/
theorem pipeline_absent_estimate_manual_review_cex :
    pyGet fallbackFields "estimated_damage" = none ∧
    pyGet fallbackFields "initial_estimate" = some "$5,000" ∧
    find_missing_fields fallbackFields = ["estimated_damage"] ∧
    route_claim fallbackFields (find_missing_fields fallbackFields) =
      ("Manual review", "Missing mandatory fields: estimated_damage") ∧
    (route_claim fallbackFields (find_missing_fields fallbackFields)).1 ≠
      "Fast-track" := by
  refine ⟨rfl, rfl, by decide, ?_, ?_⟩
  · rw [show find_missing_fields fallbackFields = ["estimated_damage"] from by decide]
    decide
  · rw [show find_missing_fields fallbackFields = ["estimated_damage"] from by decide]
    decide

/-- C7 amended: the `initial_estimate` fallback produces `Fast-track`
with the value `5000.0` only when `route_claim` is invoked with an
empty missing list; through the pipeline an absent `estimated_damage`
is itself reported missing. -/
theorem route_claim_fallback_requires_empty_missing
    (f : List (String × Option String))
    (hd : pyGet f "estimated_damage" = none)
    (hi : pyGet f "initial_estimate" = some "$5,000")
    (hfraud : fraudWords.any (fun w =>
        substrIn w.data (pyLower ((pyGet f "incident_description").getD "")).data)
      = false)
    (hinj : substrIn "injury".data (pyLower ((pyGet f "claim_type").getD "")).data
      = false) :
    route_claim f [] = ("Fast-track", "Estimated damage 5000.0 < 25000.") ∧
    "estimated_damage" ∈ find_missing_fields f := by
  constructor
  · have hest : parse_amount (pyOr (pyGet f "estimated_damage")
        (pyGet f "initial_estimate")) = 5000 := by
      rw [hd, hi]
      exact parse_amount_dollar5000
    rw [show route_claim f [] =
        (if fraudWords.any (fun w => substrIn w.data
            (pyLower ((pyGet f "incident_description").getD "")).data) = true then
          ("Investigation Flag", "Description contains potential fraud indicators.")
        else if substrIn "injury".data
            (pyLower ((pyGet f "claim_type").getD "")).data = true then
          ("Specialist Queue", "Claim type indicates injury.")
        else if parse_amount (pyOr (pyGet f "estimated_damage")
              (pyGet f "initial_estimate")) ≠ 0 ∧
            parse_amount (pyOr (pyGet f "estimated_damage")
              (pyGet f "initial_estimate")) < 25000 then
          ("Fast-track", "Estimated damage " ++
            pyFloatStr (parse_amount (pyOr (pyGet f "estimated_damage")
              (pyGet f "initial_estimate"))) ++ " < 25000.")
        else ("Manual review", "No specific routing rule matched.")) from by
      simp [route_claim]]
    rw [hfraud, hinj, hest]
    rw [if_neg (by simp), if_neg (by simp), if_pos (by norm_num), pyFloatStr_5000]
    decide
  · apply List.mem_filter.mpr
    refine ⟨by decide, ?_⟩
    rw [hd]

theorem route_claim_fallback_requires_empty_missing_witness :
    route_claim fallbackFields [] =
      ("Fast-track", "Estimated damage 5000.0 < 25000.") ∧
    "estimated_damage" ∈ find_missing_fields fallbackFields :=
  route_claim_fallback_requires_empty_missing fallbackFields
    rfl rfl (by decide) (by decide)

/-- C8 counterexample: with two lines after the insured-name label, the
extracted `policyholder_name` is NOT just the rest of the following
line — under `re.S` the group `(.*)` captures everything to the end of
the text. -/
theorem policyholder_name_beyond_line_cex :
    pyGet (extract_fields nameText) "policyholder_name" = some "John\nX" ∧
    pyGet (extract_fields nameText) "policyholder_name" ≠ some "John" := by
  constructor
  · decide
  · decide

/-- C8 amended: `policyholder_name` is all the text after the first
newline that follows the first case-insensitive occurrence of the label
"NAME OF INSURED" (through end of input, since `.` matches newlines
under `re.S`), trimmed; it is absent when the label never occurs — and
likewise `incident_location` with the label "LOCATION OF LOSS". -/
theorem name_location_capture_rest_of_text :
    (∀ (pre mid post : List Char) (text : String),
        text.data = pre ++ ("NAME OF INSURED".data ++ (mid ++ '\n' :: post)) →
        firstOcc "NAME OF INSURED".data text.data = some pre.length →
        (∀ c ∈ mid, notNLCh c = true) →
        pyGet (extract_fields text) "policyholder_name" =
          some (pyStrip (String.mk post))) ∧
    (∀ text : String, firstOcc "NAME OF INSURED".data text.data = none →
        pyGet (extract_fields text) "policyholder_name" = none) ∧
    (∀ (pre mid post : List Char) (text : String),
        text.data = pre ++ ("LOCATION OF LOSS".data ++ (mid ++ '\n' :: post)) →
        firstOcc "LOCATION OF LOSS".data text.data = some pre.length →
        (∀ c ∈ mid, notNLCh c = true) →
        pyGet (extract_fields text) "incident_location" =
          some (pyStrip (String.mk post))) ∧
    (∀ text : String, firstOcc "LOCATION OF LOSS".data text.data = none →
        pyGet (extract_fields text) "incident_location" = none) := by
  refine ⟨?_, ?_, ?_, ?_⟩
  · intro pre mid post text hdata hfo hmid
    have hsf : searchFrom reName text.data = some (some post) := by
      rw [show reName = .cat (litsL "NAME OF INSURED".data) tailRestOfText from rfl]
      exact labelled_restOfText_spec "NAME OF INSURED" pre mid post text.data
        hdata hfo hmid
    show first_group reName text = some (pyStrip (String.mk post))
    simp [first_group, hsf]
  · intro text hfo
    have hsf : searchFrom reName text.data = none := by
      rw [show reName = .cat (litsL "NAME OF INSURED".data) tailRestOfText from rfl]
      exact searchFrom_labelled_none _ _ _ hfo
    show first_group reName text = none
    simp [first_group, hsf]
  · intro pre mid post text hdata hfo hmid
    have hsf : searchFrom reLocation text.data = some (some post) := by
      rw [show reLocation = .cat (litsL "LOCATION OF LOSS".data) tailRestOfText from rfl]
      exact labelled_restOfText_spec "LOCATION OF LOSS" pre mid post text.data
        hdata hfo hmid
    show first_group reLocation text = some (pyStrip (String.mk post))
    simp [first_group, hsf]
  · intro text hfo
    have hsf : searchFrom reLocation text.data = none := by
      rw [show reLocation = .cat (litsL "LOCATION OF LOSS".data) tailRestOfText from rfl]
      exact searchFrom_labelled_none _ _ _ hfo
    show first_group reLocation text = none
    simp [first_group, hsf]

theorem name_location_capture_rest_of_text_witness :
    pyGet (extract_fields nameText) "policyholder_name" = some "John\nX" :=
  (name_location_capture_rest_of_text.1 [] [] ("John\nX".data) nameText
    rfl (by decide) (by intro c hc; simp at hc)).trans (by decide)

/-- C9 counterexample: a following line of lowercase letters and spaces
ending in a colon DOES terminate the description capture, because
`re.I` makes the class `[A-Z ]` match lowercase letters too. -/
theorem description_lowercase_heading_cex :
    pyGet (extract_fields descText) "incident_description" =
      some "Car hit pole" ∧
    pyGet (extract_fields descText) "incident_description" ≠
      some "Car hit pole\nnotes here: x" := by
  constructor
  · decide
  · decide

/-- C9 amended: for a text whose first occurrence of "DESCRIPTION OF
ACCIDENT" is followed (on its line) by non-newline characters, then a
newline and a nonempty remainder, the extracted description is the
shortest nonempty prefix of that remainder ending where a newline is
followed by five or more letters-or-spaces — of either case, since the
class `[A-Z ]` is matched under `re.IGNORECASE` — and then a colon, or
ending at the end of the text (`lazyCapture`/`headingStop`), trimmed. -/
theorem description_capture_until_heading_stop :
    ∀ (pre mid : List Char) (c : Char) (b' : List Char) (text : String),
      text.data = pre ++ ("DESCRIPTION OF ACCIDENT".data ++ (mid ++ '\n' :: c :: b')) →
      firstOcc "DESCRIPTION OF ACCIDENT".data text.data = some pre.length →
      (∀ x ∈ mid, notNLCh x = true) →
      pyGet (extract_fields text) "incident_description" =
        some (pyStrip (String.mk (lazyCapture [c] b'))) := by
  intro pre mid c b' text hdata hfo hmid
  rcases mrun_tailDescription_head mid c b' hmid with ⟨rest, hhead⟩
  have hdrop : ("DESCRIPTION OF ACCIDENT".data ++ (mid ++ '\n' :: c :: b')).drop
      ("DESCRIPTION OF ACCIDENT".data).length = mid ++ '\n' :: c :: b' :=
    List.drop_left _ _
  rw [hdata] at hfo
  have hsf0 := searchFrom_labelled "DESCRIPTION OF ACCIDENT".data tailDescription
    (rest, some (lazyCapture [c] b')) pre
    ("DESCRIPTION OF ACCIDENT".data ++ (mid ++ '\n' :: c :: b')) hfo
    (ciPrefixOf_self_append _ _) (by rw [hdrop]; exact hhead)
  have hsf : searchFrom reDescription text.data =
      some (some (lazyCapture [c] b')) := by
    rw [hdata, show reDescription =
        .cat (litsL "DESCRIPTION OF ACCIDENT".data) tailDescription from rfl]
    simpa using hsf0
  show first_group reDescription text = some (pyStrip (String.mk (lazyCapture [c] b')))
  simp [first_group, hsf]

theorem description_capture_until_heading_stop_witness :
    pyGet (extract_fields descText) "incident_description" =
      some "Car hit pole" :=
  (description_capture_until_heading_stop [] [] 'C'
    ("ar hit pole\nnotes here: x".data) descText rfl (by decide)
    (by intro x hx; simp at hx)).trans (by decide)

/-- C10: `asset_type` is always the constant `"Vehicle"` and
`attachments` is always `"Yes"` or `"Unknown"`, so neither field can
ever be reported missing; on the empty document the missing list is
exactly the other fourteen catalog fields in catalog order and the
claim routes to `Manual review`. -/
theorem asset_type_attachments_never_missing :
    (∀ text : String, pyGet (extract_fields text) "asset_type" = some "Vehicle") ∧
    (∀ text : String, pyGet (extract_fields text) "attachments" = some "Yes" ∨
        pyGet (extract_fields text) "attachments" = some "Unknown") ∧
    (∀ text : String, "asset_type" ∉ find_missing_fields (extract_fields text)) ∧
    (∀ text : String, "attachments" ∉ find_missing_fields (extract_fields text)) ∧
    find_missing_fields (extract_fields "") =
      ["policy_number", "policyholder_name", "effective_dates", "incident_date",
       "incident_time", "incident_location", "incident_description", "claimant",
       "third_parties", "contact_details", "asset_id", "estimated_damage",
       "claim_type", "initial_estimate"] ∧
    (route_claim (extract_fields "") (find_missing_fields (extract_fields ""))).1 =
      "Manual review" := by
  refine ⟨fun text => rfl, fun text => ?_, fun text => ?_, fun text => ?_,
    by decide, ?_⟩
  · have hval : pyGet (extract_fields text) "attachments" =
        some (if (searchFrom reAttachment text.data).isSome then "Yes" else "Unknown") :=
      rfl
    rw [hval]
    cases hc : (searchFrom reAttachment text.data).isSome with
    | true => left; simp
    | false => right; simp
  · intro hmem
    simp only [find_missing_fields] at hmem
    have h2 := (List.mem_filter.mp hmem).2
    have hval : pyGet (extract_fields text) "asset_type" = some "Vehicle" := rfl
    rw [hval] at h2
    exact absurd h2 (by decide)
  · intro hmem
    simp only [find_missing_fields] at hmem
    have h2 := (List.mem_filter.mp hmem).2
    have hval : pyGet (extract_fields text) "attachments" =
        some (if (searchFrom reAttachment text.data).isSome then "Yes" else "Unknown") :=
      rfl
    rw [hval] at h2
    cases hc : (searchFrom reAttachment text.data).isSome with
    | true =>
        rw [hc] at h2
        exact absurd h2 (by decide)
    | false =>
        rw [hc] at h2
        exact absurd h2 (by decide)
  · rw [show find_missing_fields (extract_fields "") =
        ["policy_number", "policyholder_name", "effective_dates", "incident_date",
         "incident_time", "incident_location", "incident_description", "claimant",
         "third_parties", "contact_details", "asset_id", "estimated_damage",
         "claim_type", "initial_estimate"] from by decide]
    decide
